import Mathlib

/-!
Shallow embedding of the MariaDB/ScyllaDB storage-engine translation layer
(`scylla_types.cc`, `scylla_query.cc`, `ha_scylla.cc`): type conversion between
MariaDB field values and CQL text, CQL statement building, result-row
materialization, and the handler's scan-position bookkeeping.

C++ `std::string` is modelled as Lean `String` (in this toolchain a wrapper
around `List Char`); C++ `longlong` as `Int` with explicit 64-bit range checks;
C++ exceptions as `Except`.
-/

namespace ScyllaModel

/-- The single-quote character (ASCII 39), written numerically. -/
def quoteC : Char := Char.ofNat 39

/-- Whitespace recognized by C `isspace` in the C locale: space, \t, \n, \v,
\f, \r.  Used by the `std::stoll` model for leading-whitespace skipping. -/
def isSpaceC (c : Char) : Bool :=
  c = ' ' || c = Char.ofNat 9 || c = Char.ofNat 10 || c = Char.ofNat 11 ||
  c = Char.ofNat 12 || c = Char.ofNat 13

/-- The whitespace set of `has_where_clause`'s `find_first_not_of(" \t\r\n")`
in `scylla_query.cc`. -/
def isWsClause (c : Char) : Bool :=
  c = ' ' || c = Char.ofNat 9 || c = Char.ofNat 13 || c = Char.ofNat 10

/-- Numeric value of a decimal digit character. -/
def digitVal (c : Char) : Nat := c.toNat - 48

/-- Big-endian decimal digit rendering of a natural number, with explicit fuel
so that the definition is structurally recursive (and hence kernel-computable).
Returns `[]` for `n = 0`; `natToChars` adds the special case. -/
def natToCharsAux : Nat → Nat → List Char
  | 0, _ => []
  | fuel + 1, n =>
    if n = 0 then [] else natToCharsAux fuel (n / 10) ++ [Nat.digitChar (n % 10)]

/-- Decimal ASCII rendering of a natural number, as produced by
`std::ostream::operator<<` for a non-negative integer. -/
def natToChars (n : Nat) : List Char :=
  if n = 0 then ['0'] else natToCharsAux n n

/-- Decimal ASCII rendering of a signed integer, as produced by
`std::ostream::operator<<(longlong)` in `ScyllaTypes::get_cql_value`. -/
def intToChars (v : Int) : List Char :=
  if v < 0 then '-' :: natToChars v.natAbs else natToChars v.toNat

/-- C++ exceptions thrown by `std::stoll` / `std::stod`. -/
inductive CppExn
  | invalidArgument
  | outOfRange
deriving DecidableEq

instance {ε α : Type} [DecidableEq ε] [DecidableEq α] : DecidableEq (Except ε α) := fun x y =>
  match x, y with
  | .ok a, .ok b =>
    if h : a = b then isTrue (by rw [h]) else isFalse (by intro hc; injection hc; contradiction)
  | .error a, .error b =>
    if h : a = b then isTrue (by rw [h]) else isFalse (by intro hc; injection hc; contradiction)
  | .ok _, .error _ => isFalse (fun hc => Except.noConfusion hc)
  | .error _, .ok _ => isFalse (fun hc => Except.noConfusion hc)

/-- Largest `long long` value. -/
def int64Max : Int := 9223372036854775807

/-- Smallest `long long` value. -/
def int64Min : Int := -9223372036854775808

/-- Optional leading sign recognition of `strtoll`: consumes one leading `-`
or `+`, reporting whether the result is negated. -/
def splitSign (s : List Char) : Bool × List Char :=
  match s with
  | [] => (false, [])
  | c :: rest =>
    if c = '-' then (true, rest)
    else if c = '+' then (false, rest)
    else (false, c :: rest)

/-- Accumulate a run of decimal digit characters into a natural number, the
way `strtoll` accumulates digits left to right. -/
def natOfDigits (ds : List Char) : Nat :=
  ds.foldl (fun a c => a * 10 + digitVal c) 0

/-- Apply the recognized sign to the accumulated magnitude. -/
def intOfSign (neg : Bool) (mag : Nat) : Int :=
  if neg then -(mag : Int) else (mag : Int)

/-- The `std::stoll` range check: values outside signed 64 bits throw
`std::out_of_range`. -/
def stollRange (v : Int) : Except CppExn Int :=
  if v < int64Min ∨ int64Max < v then .error .outOfRange else .ok v

/-- Digit-run phase of `std::stoll`: after whitespace and sign handling, a
non-empty run of decimal digits is required (`std::invalid_argument`
otherwise); trailing non-digit characters are ignored. -/
def stollOfSign (neg : Bool) (rest : List Char) : Except CppExn Int :=
  if rest.takeWhile Char.isDigit = [] then .error .invalidArgument
  else stollRange (intOfSign neg (natOfDigits (rest.takeWhile Char.isDigit)))

/-- Sign phase of `std::stoll`, applied after leading whitespace is skipped. -/
def stollCore (s1 : List Char) : Except CppExn Int :=
  stollOfSign (splitSign s1).1 (splitSign s1).2

/-- Model of `std::stoll`: skip leading C whitespace, read an optional sign and
a non-empty run of decimal digits, and range-check the result. -/
def stoll (s : String) : Except CppExn Int :=
  stollCore (s.data.dropWhile isSpaceC)

/- ### Data model: MariaDB field types and values -/

/-- The MariaDB field type codes handled by the switches in
`scylla_types.cc` (`MYSQL_TYPE_*`); `other` stands for any code that falls
into a `default:` arm. -/
inductive MysqlType
  | tiny | short | long | int24 | longlong
  | float | double | decimal | newdecimal
  | varchar | varString | stringT | enumT | setT | json
  | tinyBlob | mediumBlob | longBlob | blob
  | date | time | datetime | timestamp | timestamp2
  | bit
  | other
deriving DecidableEq

/-- The five integer field type codes grouped together by
`get_cql_value` / `store_field_value`. -/
def MysqlType.isIntType : MysqlType → Bool
  | .tiny | .short | .long | .int24 | .longlong => true
  | _ => false

/-- The `time_type` tag of `MYSQL_TIME`. -/
inductive TimeTypeTag
  | notime | dateTag | timeTag | datetimeTag
deriving DecidableEq

/-- The `MYSQL_TIME` broken-down time structure (all calendar fields are
unsigned in the C struct; `second_part` is microseconds). -/
structure MyTimeRec where
  year : Nat
  month : Nat
  day : Nat
  hour : Nat
  minute : Nat
  second : Nat
  second_part : Nat
  timeType : TimeTypeTag
deriving DecidableEq

/-- The all-zero `MYSQL_TIME`, as produced by `memset(&ltime, 0, ...)`. -/
def zeroTime : MyTimeRec := ⟨0, 0, 0, 0, 0, 0, 0, .notime⟩

/-- The value stored into a destination `Field` by `store_field_value`.
Float/double fields keep the accepted text (no claim concerns float
numerics); text/decimal/blob fields keep the copied bytes. -/
inductive FieldVal
  | vNull
  | vInt (v : Int)
  | vRealText (s : String)
  | vStr (s : String)
  | vTime (t : MyTimeRec)
deriving DecidableEq

/-- Source-side view of a MariaDB `Field` as read by `get_cql_value`: its type
code, null flag, and the results of the accessors the function calls
(`val_int`, `val_str`, `val_real` rendered at stream precision 15, `get_date`
/ `get_time`, and the `charset() == &my_charset_bin` test).  The `ostream`
rendering of the double value is kept abstract as `realText` since no claim
concerns float formatting. -/
structure FieldSrc where
  ty : MysqlType
  isNull : Bool
  intVal : Int
  strVal : String
  realText : String
  timeVal : MyTimeRec
  binaryCharset : Bool
deriving DecidableEq

/- ### Escaping and hex rendering -/

/-- Body of `ScyllaTypes::escape_string`: every single quote is doubled, every
other character is copied through. -/
def escapeChars : List Char → List Char
  | [] => []
  | c :: rest =>
    if c = quoteC then quoteC :: quoteC :: escapeChars rest
    else c :: escapeChars rest

/-- `ScyllaTypes::escape_string` on `std::string`. -/
def escape_string (s : String) : String := String.mk (escapeChars s.data)

/-- Spec-side inverse of the quote doubling, named by §8 of the spec ("the
result parses back to the original string by stripping the doubling"): each
`''` pair collapses to `'`, all other characters are copied. -/
def unescapeQuotes : List Char → List Char
  | [] => []
  | c :: rest =>
    if c = quoteC then
      match rest with
      | [] => [c]
      | c2 :: rest2 =>
        if c2 = quoteC then quoteC :: unescapeQuotes rest2
        else c :: unescapeQuotes (c2 :: rest2)
    else c :: unescapeQuotes rest

/-- Two lowercase hex digits of a byte, most-significant nibble first, as
printed by `std::hex << std::setw(2) << std::setfill('0')`. -/
def hexByte (n : Nat) : List Char := [Nat.digitChar (n / 16 % 16), Nat.digitChar (n % 16)]

/-- Hex rendering of a byte string (blob encoding body). -/
def bytesToHex (s : List Char) : List Char := (s.map (fun c => hexByte (c.toNat % 256))).flatten

/-- Zero-padded decimal rendering, as produced by
`std::setw(w) << std::setfill('0')` for an unsigned value. -/
def padNat (w n : Nat) : List Char :=
  List.replicate (w - (natToChars n).length) '0' ++ natToChars n

/- ### Calendar conversion (mktime / gmtime models) -/

/-- Days since 1970-01-01 of a proleptic-Gregorian civil date
(the standard civil-from-days algorithm used by C libraries). -/
def daysFromCivil (y m d : Int) : Int :=
  let y2 := if m ≤ 2 then y - 1 else y
  let era := (if 0 ≤ y2 then y2 else y2 - 399).tdiv 400
  let yoe := y2 - era * 400
  let doy := (153 * (m + (if 2 < m then -3 else 9)) + 2).tdiv 5 + d - 1
  let doe := yoe * 365 + yoe.tdiv 4 - yoe.tdiv 100 + doy
  era * 146097 + doe - 719468

/-- Civil date of a day count since 1970-01-01 (inverse of `daysFromCivil`). -/
def civilFromDays (z : Int) : Int × Int × Int :=
  let z2 := z + 719468
  let era := (if 0 ≤ z2 then z2 else z2 - 146096).tdiv 146097
  let doe := z2 - era * 146097
  let yoe := (doe - doe.tdiv 1460 + doe.tdiv 36524 - doe.tdiv 146096).tdiv 365
  let y := yoe + era * 400
  let doy := doe - (365 * yoe + yoe.tdiv 4 - yoe.tdiv 100)
  let mp := (5 * doy + 2).tdiv 153
  let d := doy - (153 * mp + 2).tdiv 5 + 1
  let m := mp + (if mp < 10 then 3 else -9)
  (if m ≤ 2 then y + 1 else y, m, d)

/-- Model of `mktime` as called by `get_cql_value`'s timestamp arm: converts
broken-down calendar fields to seconds since the Unix epoch, interpreting them
in the process's local timezone.  The model makes the environment dependence
explicit as `tzOff`, the local zone's offset east of UTC in seconds (0 when
the process runs under UTC); normalization of out-of-range fields and DST
transitions are not modelled, since the fields come from `get_date`. -/
def mktimeModel (tzOff : Int) (t : MyTimeRec) : Int :=
  daysFromCivil t.year t.month t.day * 86400 +
    t.hour * 3600 + t.minute * 60 + t.second - tzOff

/-- Model of `gmtime` as called by `store_field_value`'s timestamp arm:
seconds since the Unix epoch to broken-down UTC calendar fields (proleptic
Gregorian, no leap seconds, as in glibc). -/
def gmtimeModel (secs : Int) : MyTimeRec :=
  let days := secs.fdiv 86400
  let rem := (secs.fmod 86400).toNat
  let civ := civilFromDays days
  { year := civ.1.toNat, month := civ.2.1.toNat, day := civ.2.2.toNat,
    hour := rem / 3600, minute := rem % 3600 / 60, second := rem % 60,
    second_part := 0, timeType := .notime }

/- ### ScyllaTypes::get_cql_value -/

/-- `ScyllaTypes::get_cql_value`: the CQL text of a field value.  `tzOff` is
the process timezone offset consumed by the `mktime` call in the timestamp
arm; every other arm ignores it. -/
def get_cql_value (tzOff : Int) (f : FieldSrc) : String :=
  if f.isNull then "NULL"
  else match f.ty with
  | .tiny | .short | .long | .int24 | .longlong => String.mk (intToChars f.intVal)
  | .float | .double => f.realText
  | .decimal | .newdecimal => f.strVal
  | .varchar | .varString | .stringT | .enumT | .setT | .json =>
      String.mk (quoteC :: (escapeChars f.strVal.data ++ [quoteC]))
  | .tinyBlob | .mediumBlob | .longBlob | .blob =>
      if f.binaryCharset then String.mk ('0' :: 'x' :: bytesToHex f.strVal.data)
      else String.mk (quoteC :: (escapeChars f.strVal.data ++ [quoteC]))
  | .date =>
      String.mk ([quoteC] ++ padNat 4 f.timeVal.year ++ ['-'] ++
        padNat 2 f.timeVal.month ++ ['-'] ++ padNat 2 f.timeVal.day ++ [quoteC])
  | .time =>
      String.mk ([quoteC] ++ padNat 2 f.timeVal.hour ++ [':'] ++
        padNat 2 f.timeVal.minute ++ [':'] ++ padNat 2 f.timeVal.second ++ [quoteC])
  | .datetime | .timestamp | .timestamp2 =>
      String.mk (intToChars (mktimeModel tzOff f.timeVal * 1000 + (f.timeVal.second_part / 1000 : Nat)))
  | .bit => if f.intVal ≠ 0 then "true" else "false"
  | .other => String.mk (quoteC :: (escapeChars f.strVal.data ++ [quoteC]))

/- ### ScyllaTypes::store_field_value -/

/-- Per-type lower bound of the destination integer column. -/
def intMinOf : MysqlType → Int
  | .tiny => -128
  | .short => -32768
  | .int24 => -8388608
  | .long => -2147483648
  | .longlong => int64Min
  | _ => 0

/-- Per-type upper bound of the destination integer column. -/
def intMaxOf : MysqlType → Int
  | .tiny => 127
  | .short => 32767
  | .int24 => 8388607
  | .long => 2147483647
  | .longlong => int64Max
  | _ => 0

/-- Model of the host server's `Field::store(longlong, false)` for integer
fields (MariaDB server code, external to this repository): a value outside the
column type's range is clamped to the nearer limit; the truncation warning it
raises is ignored by `store_field_value`, whose return type is `void`. -/
def fieldStoreInt (ty : MysqlType) (v : Int) : Int :=
  if v < intMinOf ty then intMinOf ty
  else if intMaxOf ty < v then intMaxOf ty
  else v

/-- Acceptance test of `std::stod`: after optional whitespace and sign there
must be at least one digit, or a decimal point followed by a digit (the
hex/inf/nan forms are not modelled; no claim concerns them). -/
def stodAccepts (s : List Char) : Bool :=
  match (splitSign (s.dropWhile isSpaceC)).2 with
  | [] => false
  | c :: rest => c.isDigit || (c = '.' && (rest.headD 'x').isDigit)

/-- Model of `std::stod` at the precision the claims need: it throws
`std::invalid_argument` exactly when no initial floating-point text can be
parsed, and otherwise yields a value (kept as the accepted text, since no
claim concerns float numerics). -/
def stod (s : String) : Except CppExn String :=
  if stodAccepts s.data then .ok s else .error .invalidArgument

/-- Reinterpretation of a scanned C `int` stored into an unsigned
`MYSQL_TIME` field (two's complement). -/
def toUIntField (v : Int) : Nat := (v.emod 4294967296).toNat

/-- One `%d` conversion of `sscanf`: skip whitespace, optional sign, a
non-empty digit run; returns the value and the rest of the input. -/
def scanInt (s : List Char) : Option (Int × List Char) :=
  let p := splitSign (s.dropWhile isSpaceC)
  let ds := p.2.takeWhile Char.isDigit
  if ds = [] then none
  else some (intOfSign p.1 (natOfDigits ds), p.2.drop ds.length)

/-- Model of `sscanf(value, "%d<sep>%d<sep>%d", ...)` over a zeroed struct:
fields not matched keep their `memset` value 0. -/
def scan3 (sep : Char) (s : List Char) : Int × Int × Int :=
  match scanInt s with
  | none => (0, 0, 0)
  | some (a, r1) =>
    match r1 with
    | [] => (a, 0, 0)
    | c :: r2 =>
      if c = sep then
        match scanInt r2 with
        | none => (a, 0, 0)
        | some (b, r3) =>
          match r3 with
          | [] => (a, b, 0)
          | c2 :: r4 =>
            if c2 = sep then
              match scanInt r4 with
              | none => (a, b, 0)
              | some (cv, _) => (a, b, cv)
            else (a, b, 0)
      else (a, 0, 0)

/-- `ScyllaTypes::store_field_value`: decode CQL result text into a field.
The literal `NULL` and the empty string store SQL null.  C++ exceptions
(`std::stoll` / `std::stod` in the integer and float arms) propagate into the
`Except` error, exactly as the uncaught exceptions propagate out of the C++
function; only the timestamp arm catches them, falling back to storing the
raw text. -/
def store_field_value (ty : MysqlType) (value : String) : Except CppExn FieldVal :=
  if value = "NULL" ∨ value = "" then .ok .vNull
  else match ty with
  | .tiny | .short | .long | .int24 | .longlong =>
      (stoll value).map (fun v => .vInt (fieldStoreInt ty v))
  | .float | .double => (stod value).map .vRealText
  | .decimal | .newdecimal => .ok (.vStr value)
  | .varchar | .varString | .stringT | .enumT | .setT | .json
  | .tinyBlob | .mediumBlob | .longBlob | .blob => .ok (.vStr value)
  | .date =>
      .ok (.vTime { year := toUIntField (scan3 '-' value.data).1,
                    month := toUIntField (scan3 '-' value.data).2.1,
                    day := toUIntField (scan3 '-' value.data).2.2,
                    hour := 0, minute := 0, second := 0, second_part := 0,
                    timeType := .dateTag })
  | .time =>
      .ok (.vTime { year := 0, month := 0, day := 0,
                    hour := toUIntField (scan3 ':' value.data).1,
                    minute := toUIntField (scan3 ':' value.data).2.1,
                    second := toUIntField (scan3 ':' value.data).2.2,
                    second_part := 0, timeType := .timeTag })
  | .datetime | .timestamp | .timestamp2 =>
      match stoll value with
      | .ok ms =>
          .ok (.vTime { gmtimeModel (ms.tdiv 1000) with
                        second_part := (((ms.tmod 1000) * 1000).emod 18446744073709551616).toNat,
                        timeType := .datetimeTag })
      | .error _ => .ok (.vStr value)
  | .bit => .ok (.vInt (if value = "true" ∨ value = "1" then 1 else 0))
  | .other => .ok (.vStr value)

/- ### Field fixtures -/

/-- A non-null field of the given type carrying an integer value. -/
def intField (ty : MysqlType) (v : Int) : FieldSrc := ⟨ty, false, v, "", "", zeroTime, false⟩

/-- A non-null `VARCHAR` field carrying a text value. -/
def textField (s : String) : FieldSrc := ⟨.varchar, false, 0, s, "", zeroTime, false⟩

/-- A non-null `TIMESTAMP` field carrying a broken-down time value. -/
def tsField (t : MyTimeRec) : FieldSrc := ⟨.timestamp, false, 0, "", "", t, false⟩

/- ### ScyllaQueryBuilder (scylla_query.cc) -/

/-- A table column as seen by the query builder: its name and the field
object (type, plus the value currently visible through the record buffer in
use). -/
structure ColumnModel where
  name : String
  src : FieldSrc
deriving DecidableEq

/-- A table as seen by the builders: the ordered columns and the primary-key
part list (`fieldnr - 1` indices into `cols`); `none` models
`table->s->primary_key == MAX_KEY`. -/
structure TableModel where
  cols : List ColumnModel
  primaryKey : Option (List Nat)
deriving DecidableEq

/-- Placeholder used for out-of-range buffer reads (never reached on
well-formed inputs). -/
def defaultField : FieldSrc := ⟨.other, true, 0, "", "", zeroTime, false⟩

/-- Placeholder column for out-of-range column indices. -/
def defaultColumn : ColumnModel := ⟨"", defaultField⟩

/-- Name of column `i` of the table. -/
def colNameOf (t : TableModel) (i : Nat) : String := (t.cols.getD i defaultColumn).name

/-- The `first`-flag separator loop shared by the builders: items joined by a
separator emitted before every item but the first. -/
def joinSep (sep : String) : List String → String
  | [] => ""
  | [x] => x
  | x :: y :: rest => x ++ sep ++ joinSep sep (y :: rest)

/-- `ScyllaTypes::mariadb_to_cql_type`: CQL type name of a MariaDB field. -/
def mariadb_to_cql_type (f : FieldSrc) : String :=
  match f.ty with
  | .tiny => "tinyint"
  | .short => "smallint"
  | .long | .int24 => "int"
  | .longlong => "bigint"
  | .float => "float"
  | .double => "double"
  | .decimal | .newdecimal => "decimal"
  | .varchar | .varString | .stringT => "text"
  | .tinyBlob | .mediumBlob | .longBlob | .blob =>
      if f.binaryCharset then "blob" else "text"
  | .date => "date"
  | .time => "time"
  | .datetime | .timestamp | .timestamp2 => "timestamp"
  | .enumT | .setT => "text"
  | .json => "text"
  | .bit => "boolean"
  | .other => "text"

/-- `ScyllaQueryBuilder::build_column_list`: comma-separated column names in
schema order. -/
def build_column_list (t : TableModel) : String :=
  joinSep ", " (t.cols.map (fun c => c.name))

/-- `ScyllaQueryBuilder::build_primary_key_where`: equality conjunction over
the primary-key parts, reading values from the supplied record buffer `buf`
(one field view per column); falls back to the first column when the table has
no primary key. -/
def build_primary_key_where (tz : Int) (t : TableModel) (buf : List FieldSrc) : String :=
  match t.primaryKey with
  | some parts =>
      joinSep " AND " (parts.map (fun k =>
        colNameOf t k ++ " = " ++ get_cql_value tz (buf.getD k defaultField)))
  | none =>
      match t.cols with
      | [] => ""
      | c0 :: _ => c0.name ++ " = " ++ get_cql_value tz (buf.getD 0 defaultField)

/-- `ScyllaQueryBuilder::build_set_clause`: `col = value` over every column
whose index is not a primary-key part, reading values from the new-data
buffer. -/
def build_set_clause (tz : Int) (t : TableModel) (new_data : List FieldSrc) : String :=
  joinSep ", " (((t.cols.enum).filter (fun p =>
      match t.primaryKey with
      | some parts => ! parts.contains p.1
      | none => true)).map (fun p =>
    p.2.name ++ " = " ++ get_cql_value tz (new_data.getD p.1 defaultField)))

/-- `ScyllaQueryBuilder::has_where_clause`: non-empty and containing a
character outside `" \t\r\n"`. -/
def has_where_clause (w : String) : Bool :=
  decide (w ≠ "") && w.data.any (fun c => ! isWsClause c)

/-- `ScyllaQueryBuilder::build_create_table_cql`. -/
def build_create_table_cql (t : TableModel) (ks tn : String) : String :=
  "CREATE TABLE IF NOT EXISTS " ++ ks ++ "." ++ tn ++ " ("
    ++ joinSep ", " (t.cols.map (fun c => c.name ++ " " ++ mariadb_to_cql_type c.src))
    ++ (match t.primaryKey with
        | some parts => ", PRIMARY KEY (" ++ joinSep ", " (parts.map (colNameOf t)) ++ ")"
        | none =>
          match t.cols with
          | [] => ""
          | c0 :: _ => ", PRIMARY KEY (" ++ c0.name ++ ")")
    ++ ")"

/-- `ScyllaQueryBuilder::build_update_cql`. -/
def build_update_cql (tz : Int) (t : TableModel) (old_data new_data : List FieldSrc)
    (ks tn : String) : String :=
  "UPDATE " ++ ks ++ "." ++ tn ++ " SET " ++ build_set_clause tz t new_data
    ++ " WHERE " ++ build_primary_key_where tz t old_data

/-- `ScyllaQueryBuilder::build_delete_cql`. -/
def build_delete_cql (tz : Int) (t : TableModel) (buf : List FieldSrc)
    (ks tn : String) : String :=
  "DELETE FROM " ++ ks ++ "." ++ tn ++ " WHERE " ++ build_primary_key_where tz t buf

/-- `ScyllaQueryBuilder::build_select_cql`. -/
def build_select_cql (t : TableModel) (ks tn : String)
    (allow_filtering : Bool) (where_clause : String) : String :=
  "SELECT " ++ build_column_list t ++ " FROM " ++ ks ++ "." ++ tn
    ++ (if has_where_clause where_clause then " WHERE " ++ where_clause else "")
    ++ (if allow_filtering then " ALLOW FILTERING" else "")

/-- One `col = value` clause of `build_where_from_key`, for key part `p.1`
with its key-buffer field view `p.2`. -/
def keyClause (tz : Int) (t : TableModel) (p : Nat × FieldSrc) : String :=
  colNameOf t p.1 ++ " = " ++ get_cql_value tz p.2

/-- The key-part loop of `build_where_from_key`: position `i` counts key parts
from 0; the loop breaks at the first part whose bit is clear in the keypart
map. -/
def whereFromKeyAux (tz : Int) (t : TableModel) (m : Nat) :
    Nat → List (Nat × FieldSrc) → String
  | _, [] => ""
  | i, p :: rest =>
    if m.testBit i then
      (if 0 < i then " AND " else "") ++ keyClause tz t p
        ++ whereFromKeyAux tz t m (i + 1) rest
    else ""

/-- `ScyllaQueryBuilder::build_where_from_key`: equality conjunction over the
prefix of primary-key parts selected by `keypart_map`, reading the part
values from the key buffer (`keyVals`, one field view per key part); yields
the empty string when the table has no primary key. -/
def build_where_from_key (tz : Int) (t : TableModel) (keyVals : List FieldSrc)
    (m : Nat) : String :=
  match t.primaryKey with
  | none => ""
  | some parts => whereFromKeyAux tz t m 0 (parts.zip keyVals)

/- ### ha_scylla result materialization (store_result_to_record) -/

/-- C-locale `::tolower` on a character. -/
def lowerAscii (c : Char) : Char :=
  if 'A' ≤ c && c ≤ 'Z' then Char.ofNat (c.toNat + 32) else c

/-- Lowercasing used for the case-insensitive column-name matching. -/
def lowerStr (s : String) : String := String.mk (s.data.map lowerAscii)

/-- `std::map::operator[]` assignment on an association list: overwrites the
entry with the same key, otherwise appends. -/
def insertAssoc (mp : List (String × Nat)) (k : String) (v : Nat) : List (String × Nat) :=
  match mp with
  | [] => [(k, v)]
  | (k0, v0) :: rest =>
    if k0 = k then (k0, v) :: rest else (k0, v0) :: insertAssoc rest k v

/-- The `column_map` of `store_result_to_record`: lowercased result-column
name to its position, inserted in ascending position order (so a duplicate
name keeps the last position), over positions within both the column-name
list and the row. -/
def buildColumnMap (colNames row : List String) : List (String × Nat) :=
  (List.range (min colNames.length row.length)).foldl
    (fun mp i => insertAssoc mp (lowerStr (colNames.getD i "")) i) []

/-- Per-cell branch of the field loop in `store_result_to_record`: an empty or
`NULL` cell nulls the field, any other cell is decoded by
`store_field_value`. -/
def storeCell (ty : MysqlType) (cell : String) : Except CppExn (Option FieldVal) :=
  if cell = "" ∨ cell = "NULL" then .ok none
  else (store_field_value ty cell).map some

/-- The field loop of `ha_scylla::store_result_to_record` on one result row:
for every schema column, look its lowercased name up in the column map; a hit
decodes the corresponding cell, a miss nulls the field.  A C++ exception
thrown by a cell decode propagates out of the loop (the source has no
try/catch here), modelled by the `Except` short circuit. -/
def storeFields (cmap : List (String × Nat)) (row : List String) :
    List ColumnModel → Except CppExn (List (Option FieldVal))
  | [] => .ok []
  | c :: rest =>
    match (match cmap.lookup (lowerStr c.name) with
           | some i => storeCell c.src.ty (row.getD i "")
           | none => .ok none) with
    | .error e => .error e
    | .ok v => (storeFields cmap row rest).map (fun vs => v :: vs)

/-- `ha_scylla::store_result_to_record` on one result row: builds the
case-insensitive column map, then runs the field loop over the schema
columns.  The buffer-offset juggling of the source (`move_field`, `memset`)
relocates storage only and is not part of the value model. -/
def store_result_to_record (colNames row : List String) (t : TableModel) :
    Except CppExn (List (Option FieldVal)) :=
  storeFields (buildColumnMap colNames row) row t.cols

/- ### ha_scylla scan positions (rnd_next / position / rnd_pos) -/

/-- Handler error codes surfaced by the scan functions. -/
inductive HaErr
  | endOfFile
deriving DecidableEq

/-- Little-endian base-256 bytes of a natural number, `k` bytes wide. -/
def natToBytes : Nat → Nat → List Nat
  | 0, _ => []
  | k + 1, n => n % 256 :: natToBytes k (n / 256)

/-- The `memcpy(ref, &pos, sizeof(size_t))` encoding of a row index: the
fixed-width (8-byte `size_t`) binary image of the index. -/
def encodeSizeT (n : Nat) : List Nat := natToBytes 8 n

/-- The `memcpy(&row_index, pos, sizeof(size_t))` decoding of a reference
buffer back to a row index. -/
def decodeSizeT (bs : List Nat) : Nat := bs.foldr (fun b acc => b + 256 * acc) 0

/-- Scan-relevant handler state: the retained result set and column names of
the last query, the scan cursor, and the reference buffer `ref`. -/
structure HaState where
  result_set : List (List String)
  column_names : List String
  current_position : Nat
  ref : List Nat
deriving DecidableEq

/-- `ha_scylla::rnd_next`: end-of-file once the cursor passes the retained
result set, otherwise materializes the row at the cursor (returned here as
the row index handed to `store_result_to_record`) and advances the cursor. -/
def rnd_next (s : HaState) : Except HaErr (Nat × HaState) :=
  if s.result_set.length ≤ s.current_position then .error .endOfFile
  else .ok (s.current_position, { s with current_position := s.current_position + 1 })

/-- `ha_scylla::position`: stores the binary encoding of the index of the row
just returned (`current_position - 1`) into the reference buffer. -/
def position (s : HaState) : HaState :=
  { s with ref := encodeSizeT (s.current_position - 1) }

/-- `ha_scylla::rnd_pos`: decodes the reference back to a row index and
materializes that row of the retained result set (returned as the row index
handed to `store_result_to_record`, which reports end-of-file past the set). -/
def rnd_pos (s : HaState) (pos : List Nat) : Except HaErr Nat :=
  if s.result_set.length ≤ decodeSizeT pos then .error .endOfFile
  else .ok (decodeSizeT pos)

/-- `n + 1` consecutive `rnd_next` calls, as issued by a scan; yields the
result of the last call. -/
def rndNextIter : Nat → HaState → Except HaErr (Nat × HaState)
  | 0, s => rnd_next s
  | n + 1, s => (rnd_next s).bind (fun p => rndNextIter n p.2)

/-- The scan state right after `rnd_init(true)` runs a full-table SELECT that
returned `rs`: cursor reset to 0. -/
def scanStart (rs : List (List String)) (cols : List String) : HaState :=
  ⟨rs, cols, 0, []⟩

/-- The CQL statement issued by `ha_scylla::index_read_map`: a SELECT (always
with ALLOW FILTERING) whose WHERE clause comes from `build_where_from_key`. -/
def index_read_cql (tz : Int) (t : TableModel) (ks tn : String)
    (keyVals : List FieldSrc) (m : Nat) : String :=
  build_select_cql t ks tn true (build_where_from_key tz t keyVals m)

/-- All-leading-`AND` chain of clauses (the shape the key-part loop emits from
position 1 onward). -/
def andChain : List String → String
  | [] => ""
  | c :: cs => " AND " ++ (c ++ andChain cs)

/- ### Lemmas about decimal printing and parsing -/

theorem digitVal_digitChar : ∀ d, d < 10 → digitVal (Nat.digitChar d) = d := by
  decide

theorem isDigit_digitChar : ∀ d, d < 10 → (Nat.digitChar d).isDigit = true := by
  decide

theorem natToCharsAux_eq (fuel : Nat) :
    ∀ n, n ≤ fuel → natToCharsAux fuel n = ((Nat.digits 10 n).map Nat.digitChar).reverse := by
  induction fuel with
  | zero =>
    intro n hn
    have hz : n = 0 := Nat.le_zero.mp hn
    subst hz
    simp [natToCharsAux]
  | succ f ih =>
    intro n hn
    by_cases h0 : n = 0
    · subst h0
      simp [natToCharsAux]
    · rw [natToCharsAux, if_neg h0]
      rw [ih (n / 10) (by
        have := Nat.div_lt_self (Nat.pos_of_ne_zero h0) (by norm_num : 1 < 10)
        omega)]
      rw [Nat.digits_def' (by norm_num : (1:ℕ) < 10) (Nat.pos_of_ne_zero h0)]
      simp

theorem natToChars_eq (n : Nat) :
    natToChars n = if n = 0 then ['0'] else ((Nat.digits 10 n).map Nat.digitChar).reverse := by
  unfold natToChars
  by_cases h : n = 0
  · simp [h]
  · rw [if_neg h, if_neg h, natToCharsAux_eq n n le_rfl]

theorem natToChars_ne_nil (n : Nat) : natToChars n ≠ [] := by
  rw [natToChars_eq]
  by_cases h : n = 0
  · simp [h]
  · rw [if_neg h]
    simp [Nat.digits_eq_nil_iff_eq_zero, h]

theorem natToChars_all_digit (n : Nat) :
    ∀ c ∈ natToChars n, c.isDigit = true := by
  rw [natToChars_eq]
  by_cases h : n = 0
  · intro c hc
    rw [if_pos h] at hc
    simp at hc
    subst hc
    decide
  · rw [if_neg h]
    intro c hc
    simp only [List.mem_reverse, List.mem_map] at hc
    obtain ⟨d, hd, rfl⟩ := hc
    exact isDigit_digitChar d (Nat.digits_lt_base (by norm_num : 1 < 10) hd)

theorem foldl_digitChars (ds : List Nat) (hd : ∀ d ∈ ds, d < 10) :
    ∀ a : Nat,
      List.foldl (fun a c => a * 10 + digitVal c) a (ds.map Nat.digitChar)
        = a * 10 ^ ds.length + Nat.ofDigits 10 ds.reverse := by
  induction ds with
  | nil => intro a; simp [Nat.ofDigits]
  | cons d tl ih =>
    intro a
    have hd10 : d < 10 := hd d (by simp)
    have hrest : ∀ x ∈ tl, x < 10 := fun x hx => hd x (by simp [hx])
    simp only [List.map_cons, List.foldl_cons, digitVal_digitChar d hd10,
      List.reverse_cons, List.length_cons]
    rw [ih hrest (a * 10 + d), Nat.ofDigits_append]
    simp [Nat.ofDigits]
    ring

theorem natOfDigits_natToChars (n : Nat) : natOfDigits (natToChars n) = n := by
  unfold natOfDigits
  rw [natToChars_eq]
  by_cases h : n = 0
  · simp [h, digitVal]
  · rw [if_neg h]
    have hrev : ∀ d ∈ (Nat.digits 10 n).reverse, d < 10 := by
      intro d hd
      exact Nat.digits_lt_base (by norm_num : 1 < 10) (List.mem_reverse.mp hd)
    rw [← List.map_reverse]
    rw [foldl_digitChars _ hrev 0]
    simp [Nat.ofDigits_digits]

theorem takeWhile_eq_self_of_all {p : Char → Bool} :
    ∀ l : List Char, (∀ c ∈ l, p c = true) → l.takeWhile p = l := by
  intro l
  induction l with
  | nil => intro _; rfl
  | cons c tl ih =>
    intro h
    rw [List.takeWhile_cons, h c (by simp)]
    simp [ih (fun x hx => h x (by simp [hx]))]

theorem isSpaceC_eq_false_of_isDigit (c : Char) (h : c.isDigit = true) :
    isSpaceC c = false := by
  by_contra hc
  have hc' : isSpaceC c = true := by
    revert hc; cases isSpaceC c <;> simp
  simp only [isSpaceC, Bool.or_eq_true, decide_eq_true_eq] at hc'
  rcases hc' with ((((h1 | h1) | h1) | h1) | h1) | h1 <;>
    (subst h1; revert h; decide)

theorem ne_dash_of_isDigit (c : Char) (h : c.isDigit = true) : c ≠ '-' := by
  intro hc; subst hc; revert h; decide

theorem ne_plus_of_isDigit (c : Char) (h : c.isDigit = true) : c ≠ '+' := by
  intro hc; subst hc; revert h; decide

theorem dropWhile_cons_of_not_space (c : Char) (l : List Char)
    (h : isSpaceC c = false) : List.dropWhile isSpaceC (c :: l) = c :: l := by
  rw [List.dropWhile_cons, h]
  simp

theorem splitSign_dash (l : List Char) : splitSign ('-' :: l) = (true, l) := by
  simp [splitSign]

theorem splitSign_digit (c : Char) (l : List Char) (h : c.isDigit = true) :
    splitSign (c :: l) = (false, c :: l) := by
  simp only [splitSign]
  rw [if_neg (ne_dash_of_isDigit c h), if_neg (ne_plus_of_isDigit c h)]

theorem stollOfSign_natToChars (neg : Bool) (n : Nat) :
    stollOfSign neg (natToChars n) = stollRange (intOfSign neg n) := by
  unfold stollOfSign
  rw [takeWhile_eq_self_of_all _ (natToChars_all_digit n)]
  rw [if_neg (natToChars_ne_nil n), natOfDigits_natToChars]

/-- Round trip of the integer wire format: `std::stoll` applied to the decimal
rendering of any signed 64-bit value returns that value. -/
theorem stoll_intToChars (v : Int) (h1 : int64Min ≤ v) (h2 : v ≤ int64Max) :
    stoll (String.mk (intToChars v)) = .ok v := by
  unfold stoll intToChars
  simp only [int64Min, int64Max] at h1 h2
  by_cases hv : v < 0
  · rw [if_pos hv]
    show stollCore (List.dropWhile isSpaceC ('-' :: natToChars v.natAbs)) = _
    rw [dropWhile_cons_of_not_space _ _ (by decide)]
    unfold stollCore
    rw [splitSign_dash]
    show stollOfSign true (natToChars v.natAbs) = _
    rw [stollOfSign_natToChars]
    unfold intOfSign stollRange
    rw [if_pos rfl]
    rw [if_neg (by simp only [int64Min, int64Max]; omega)]
    congr 1
    omega
  · rw [if_neg hv]
    obtain ⟨c, tl, hct⟩ : ∃ c tl, natToChars v.toNat = c :: tl := by
      cases hnc : natToChars v.toNat with
      | nil => exact absurd hnc (natToChars_ne_nil _)
      | cons c tl => exact ⟨c, tl, rfl⟩
    have hcd : c.isDigit = true := by
      have := natToChars_all_digit v.toNat
      rw [hct] at this
      exact this c (by simp)
    show stollCore (List.dropWhile isSpaceC (natToChars v.toNat)) = _
    rw [hct, dropWhile_cons_of_not_space _ _ (isSpaceC_eq_false_of_isDigit c hcd)]
    unfold stollCore
    rw [splitSign_digit c tl hcd]
    show stollOfSign false (c :: tl) = _
    rw [← hct, stollOfSign_natToChars]
    rw [show intOfSign false v.toNat = (v.toNat : Int) from by simp [intOfSign]]
    unfold stollRange
    rw [if_neg (by simp only [int64Min, int64Max]; omega)]
    congr 1
    omega

/- ### Lemmas: integer encode/decode -/

theorem intToChars_ne_nil (v : Int) : intToChars v ≠ [] := by
  unfold intToChars
  by_cases hv : v < 0
  · rw [if_pos hv]; simp
  · rw [if_neg hv]; exact natToChars_ne_nil _

theorem mk_intToChars_ne (v : Int) :
    ¬(String.mk (intToChars v) = "NULL" ∨ String.mk (intToChars v) = "") := by
  intro h
  rcases h with h | h
  · have hl : intToChars v = ['N', 'U', 'L', 'L'] := congrArg String.data h
    unfold intToChars at hl
    by_cases hv : v < 0
    · rw [if_pos hv] at hl
      injection hl with h1 _
      exact absurd h1 (by decide)
    · rw [if_neg hv] at hl
      have hN : 'N' ∈ natToChars v.toNat := by rw [hl]; simp
      exact absurd (natToChars_all_digit v.toNat 'N' hN) (by decide)
  · have hl : intToChars v = [] := congrArg String.data h
    exact intToChars_ne_nil v hl

theorem store_field_value_int (ty : MysqlType) (hty : ty.isIntType = true)
    (s : String) (hs : ¬(s = "NULL" ∨ s = "")) :
    store_field_value ty s = (stoll s).map (fun v => .vInt (fieldStoreInt ty v)) := by
  cases ty <;> simp_all [MysqlType.isIntType, store_field_value]

theorem get_cql_value_int (tz : Int) (ty : MysqlType) (hty : ty.isIntType = true)
    (f : FieldSrc) (hn : f.isNull = false) (hfy : f.ty = ty) :
    get_cql_value tz f = String.mk (intToChars f.intVal) := by
  cases ty <;> simp_all [MysqlType.isIntType, get_cql_value]

theorem intRange_sub_int64 (ty : MysqlType) (hty : ty.isIntType = true) :
    int64Min ≤ intMinOf ty ∧ intMaxOf ty ≤ int64Max := by
  cases ty <;> first
    | exact absurd hty (by decide)
    | decide

theorem intMinOf_le_intMaxOf (ty : MysqlType) (hty : ty.isIntType = true) :
    intMinOf ty ≤ intMaxOf ty := by
  cases ty <;> first
    | exact absurd hty (by decide)
    | decide

/-- C1: for every integer logical type (8/16/32/64-bit signed) and every value
in that type's valid range, `get_cql_value` renders the value as decimal ASCII
and `store_field_value` parses that text and stores the same integer:
`decode(encode(v)) = v`. -/
theorem c1_integer_roundtrip (ty : MysqlType) (v : Int)
    (hty : ty.isIntType = true) (h1 : intMinOf ty ≤ v) (h2 : v ≤ intMaxOf ty) :
    store_field_value ty (get_cql_value 0 (intField ty v)) = .ok (.vInt v) := by
  have hrange := intRange_sub_int64 ty hty
  rw [get_cql_value_int 0 ty hty _ rfl rfl]
  show store_field_value ty (String.mk (intToChars v)) = _
  rw [store_field_value_int ty hty _ (mk_intToChars_ne v)]
  rw [stoll_intToChars v (by omega) (by omega)]
  simp only [Except.map]
  rw [show fieldStoreInt ty v = v from by
    unfold fieldStoreInt
    rw [if_neg (by omega), if_neg (by omega)]]

/-- Witness for C1 at the 8-bit type and its lowest value. -/
theorem c1_integer_roundtrip_witness :
    MysqlType.isIntType .tiny = true ∧ intMinOf .tiny ≤ -128 ∧ (-128 : Int) ≤ intMaxOf .tiny ∧
    store_field_value .tiny (get_cql_value 0 (intField .tiny (-128))) = .ok (.vInt (-128)) :=
  ⟨by decide, by decide, by decide,
    c1_integer_roundtrip .tiny (-128) (by decide) (by decide) (by decide)⟩

/- ### Lemmas: quote escaping -/

theorem unescapeQuotes_quote2 (rest : List Char) :
    unescapeQuotes (quoteC :: quoteC :: rest) = quoteC :: unescapeQuotes rest := by
  simp [unescapeQuotes]

theorem unescapeQuotes_cons (c : Char) (rest : List Char) (h : c ≠ quoteC) :
    unescapeQuotes (c :: rest) = c :: unescapeQuotes rest := by
  cases rest <;> simp [unescapeQuotes, h]

theorem unescape_escape (l : List Char) : unescapeQuotes (escapeChars l) = l := by
  induction l with
  | nil => rfl
  | cons c tl ih =>
    by_cases hc : c = quoteC
    · subst hc
      unfold escapeChars
      rw [if_pos rfl, unescapeQuotes_quote2, ih]
    · unfold escapeChars
      rw [if_neg hc, unescapeQuotes_cons c _ hc, ih]

/-- C2: `encode` for text wraps the value in single quotes after doubling each
embedded single quote; stripping the doubling recovers exactly the original
string, so `escape_string` is injective and un-escape ∘ escape is the
identity. -/
theorem c2_escape_roundtrip (s t : String) (h : escape_string s = escape_string t) :
    s = t ∧
    unescapeQuotes (escape_string s).data = s.data ∧
    get_cql_value 0 (textField s) = String.mk (quoteC :: (escapeChars s.data ++ [quoteC])) := by
  refine ⟨?_, ?_, rfl⟩
  · have hd : escapeChars s.data = escapeChars t.data := congrArg String.data h
    have h2 := congrArg unescapeQuotes hd
    rw [unescape_escape, unescape_escape] at h2
    exact congrArg String.mk h2
  · exact unescape_escape s.data

/-- Witness for C2 on a value with an embedded quote. -/
theorem c2_escape_roundtrip_witness :
    String.mk ['O', quoteC, 'B'] = String.mk ['O', quoteC, 'B'] ∧
    unescapeQuotes (escape_string (String.mk ['O', quoteC, 'B'])).data
      = (String.mk ['O', quoteC, 'B']).data ∧
    get_cql_value 0 (textField (String.mk ['O', quoteC, 'B']))
      = String.mk (quoteC :: (escapeChars (String.mk ['O', quoteC, 'B']).data ++ [quoteC])) :=
  c2_escape_roundtrip (String.mk ['O', quoteC, 'B']) (String.mk ['O', quoteC, 'B']) rfl

/- ### C8: out-of-range integer decode -/

/-- C8 counterexample: the text `300` is outside the 8-bit destination range,
yet decoding reports no error and silently stores the clamped value 127. -/
theorem c8_out_of_range_clamps :
    store_field_value .tiny "300" = .ok (.vInt 127) ∧ intMaxOf .tiny < 300 := by
  constructor
  · decide
  · decide

/-- C8 as amended: decoding text that is unparseable as a decimal integer, or
outside the signed 64-bit range, is an error (a thrown exception); text that
parses as 64-bit but lies outside a narrower destination type's range is
silently clamped to the nearer type limit, with no error reported. -/
theorem c8_amended (ty : MysqlType) (v : Int) (hty : ty.isIntType = true)
    (hlo : int64Min ≤ v) (hhi : v ≤ int64Max)
    (hout : intMaxOf ty < v ∨ v < intMinOf ty) :
    store_field_value ty (String.mk (intToChars v)) =
      .ok (.vInt (if v < intMinOf ty then intMinOf ty else intMaxOf ty)) ∧
    store_field_value ty "xyz" = .error .invalidArgument ∧
    store_field_value ty "99999999999999999999" = .error .outOfRange := by
  have hmm := intMinOf_le_intMaxOf ty hty
  refine ⟨?_, ?_, ?_⟩
  · rw [store_field_value_int ty hty _ (mk_intToChars_ne v)]
    rw [stoll_intToChars v hlo hhi]
    simp only [Except.map]
    rw [show fieldStoreInt ty v = (if v < intMinOf ty then intMinOf ty else intMaxOf ty) from by
      unfold fieldStoreInt
      split_ifs <;> omega]
  · rw [store_field_value_int ty hty _ (by decide)]
    rfl
  · rw [store_field_value_int ty hty _ (by decide)]
    rfl

/-- Witness for C8-amended at the 8-bit type and the out-of-range value 300. -/
theorem c8_amended_witness :
    MysqlType.isIntType .tiny = true ∧ int64Min ≤ (300 : Int) ∧ (300 : Int) ≤ int64Max ∧
    (intMaxOf .tiny < 300 ∨ (300 : Int) < intMinOf .tiny) ∧
    store_field_value .tiny (String.mk (intToChars 300)) =
      .ok (.vInt (if (300 : Int) < intMinOf .tiny then intMinOf .tiny else intMaxOf .tiny)) ∧
    store_field_value .tiny "xyz" = .error .invalidArgument ∧
    store_field_value .tiny "99999999999999999999" = .error .outOfRange :=
  ⟨by decide, by decide, by decide, by decide,
    c8_amended .tiny 300 (by decide) (by decide) (by decide) (by decide)⟩

/- ### String append helpers -/

theorem str_append_assoc (a b c : String) : a ++ b ++ c = a ++ (b ++ c) := by
  cases a with
  | mk x =>
    cases b with
    | mk y =>
      cases c with
      | mk z => exact congrArg String.mk (List.append_assoc x y z)

theorem str_append_empty (s : String) : s ++ "" = s := by
  cases s with
  | mk l => exact congrArg String.mk (List.append_nil l)

theorem str_empty_append (s : String) : "" ++ s = s := by
  cases s with
  | mk l => rfl

/- ### C5: timestamp encode/decode -/

/-- C5 counterexample: under a process timezone one hour east of UTC
(`mktime` offset 3600, e.g. CET), the calendar fields 2024-01-01T00:00:00.500
encode to 1704063600500, not 1704067200500 — the encoder uses local `mktime`
while the decoder uses UTC `gmtime`. -/
theorem c5_local_mktime_shifts_encoding :
    get_cql_value 3600 (tsField ⟨2024, 1, 1, 0, 0, 0, 500000, .notime⟩) = "1704063600500" ∧
    ("1704063600500" : String) ≠ "1704067200500" := by
  exact ⟨by decide, by decide⟩

/-- C5 as amended: when the process runs under UTC (`mktime` offset 0), the
timestamp 2024-01-01T00:00:00.500 encodes to the unquoted text 1704067200500,
and decoding that text restores exactly the same calendar fields including
the 500 ms fraction. -/
theorem c5_utc_timestamp_roundtrip (off : Int) (h : off = 0) :
    get_cql_value off (tsField ⟨2024, 1, 1, 0, 0, 0, 500000, .notime⟩) = "1704067200500" ∧
    store_field_value .timestamp "1704067200500"
      = .ok (.vTime ⟨2024, 1, 1, 0, 0, 0, 500000, .datetimeTag⟩) := by
  subst h
  exact ⟨by decide, by decide⟩

/-- Witness for C5-amended at offset 0. -/
theorem c5_utc_timestamp_roundtrip_witness :
    get_cql_value 0 (tsField ⟨2024, 1, 1, 0, 0, 0, 500000, .notime⟩) = "1704067200500" ∧
    store_field_value .timestamp "1704067200500"
      = .ok (.vTime ⟨2024, 1, 1, 0, 0, 0, 500000, .datetimeTag⟩) :=
  c5_utc_timestamp_roundtrip 0 rfl

/- ### C4: a malformed cell aborts the row -/

/-- C4: decoding the row `["abc", "7"]` against two integer columns `a`, `b`
fails the row as a whole — the `std::invalid_argument` thrown by `std::stoll`
on the malformed first cell propagates out of the field loop (no try/catch in
`store_field_value`'s integer arm or in `store_result_to_record`), so column
`b` is never stored, contradicting the claim that remaining columns are still
decoded. -/
theorem c4_bad_cell_aborts_row :
    store_result_to_record ["a", "b"] ["abc", "7"]
      ⟨[⟨"a", intField .long 0⟩, ⟨"b", intField .long 0⟩], none⟩
      = .error .invalidArgument := by
  decide

/- ### C6: WHERE emission -/

/-- C6 counterexample: `build_delete_cql` emits the `WHERE` keyword
unconditionally — on a table with no columns and no primary key the computed
predicate is empty, yet the statement still ends in ` WHERE `. -/
theorem c6_delete_emits_where_on_empty_predicate :
    build_primary_key_where 0 ⟨[], none⟩ [] = "" ∧
    build_delete_cql 0 ⟨[], none⟩ [] "ks" "t" = "DELETE FROM ks.t WHERE " := by
  exact ⟨by decide, by decide⟩

theorem any_not_eq_not_all (l : List Char) (p : Char → Bool) :
    (l.any fun c => ! p c) = ! l.all p := by
  induction l with
  | nil => rfl
  | cons c tl ih =>
    simp only [List.any_cons, List.all_cons, ih, Bool.not_and]

theorem mk_cons_ne_empty (c : Char) (cs : List Char) : String.mk (c :: cs) ≠ "" := by
  intro h
  exact absurd (congrArg String.data h) (by simp)

theorem has_where_clause_eq (w : String) : has_where_clause w = ! w.data.all isWsClause := by
  unfold has_where_clause
  cases w with
  | mk l =>
    cases l with
    | nil => rfl
    | cons c cs =>
      rw [decide_eq_true (mk_cons_ne_empty c cs)]
      rw [Bool.true_and]
      exact any_not_eq_not_all (c :: cs) isWsClause

/-- C6 as amended: only `build_select_cql` suppresses the `WHERE` keyword, and
it does so exactly when the predicate is empty or whitespace-only; `ALLOW
FILTERING` is appended exactly when requested.  `build_delete_cql` and
`build_update_cql` emit ` WHERE ` unconditionally. -/
theorem c6_where_emission (tz : Int) (t : TableModel) (ks tn w : String) (allow : Bool)
    (buf old_data new_data : List FieldSrc) :
    (w.data.all isWsClause = true →
      build_select_cql t ks tn allow w
        = "SELECT " ++ build_column_list t ++ " FROM " ++ ks ++ "." ++ tn
            ++ (if allow then " ALLOW FILTERING" else "")) ∧
    (w.data.all isWsClause = false →
      build_select_cql t ks tn allow w
        = "SELECT " ++ build_column_list t ++ " FROM " ++ ks ++ "." ++ tn
            ++ (" WHERE " ++ w) ++ (if allow then " ALLOW FILTERING" else "")) ∧
    build_delete_cql tz t buf ks tn
      = "DELETE FROM " ++ ks ++ "." ++ tn ++ " WHERE " ++ build_primary_key_where tz t buf ∧
    build_update_cql tz t old_data new_data ks tn
      = "UPDATE " ++ ks ++ "." ++ tn ++ " SET " ++ build_set_clause tz t new_data
          ++ " WHERE " ++ build_primary_key_where tz t old_data := by
  refine ⟨?_, ?_, rfl, rfl⟩
  · intro hws
    unfold build_select_cql
    rw [has_where_clause_eq, hws]
    simp only [Bool.not_true, Bool.false_eq_true, if_false]
    exact congrArg (fun x => x ++ (if allow then " ALLOW FILTERING" else ""))
      (str_append_empty _)
  · intro hws
    unfold build_select_cql
    rw [has_where_clause_eq, hws]
    simp only [Bool.not_false, if_true]

/-- Witness for C6-amended: a whitespace-only predicate yields a SELECT with
no WHERE keyword. -/
theorem c6_where_emission_witness :
    build_select_cql ⟨[], none⟩ "ks" "t" true " "
      = "SELECT " ++ build_column_list ⟨[], none⟩ ++ " FROM " ++ "ks" ++ "." ++ "t"
          ++ (if true then " ALLOW FILTERING" else "") :=
  (c6_where_emission 0 ⟨[], none⟩ "ks" "t" " " true [] [] []).1 (by decide)

/- ### C7: key-prefix WHERE clauses -/

theorem joinSep_and_eq (c : String) (cs : List String) :
    joinSep " AND " (c :: cs) = c ++ andChain cs := by
  induction cs generalizing c with
  | nil => exact (str_append_empty c).symm
  | cons y rest ih =>
    show c ++ " AND " ++ joinSep " AND " (y :: rest) = _
    rw [ih y, str_append_assoc]
    rfl

theorem whereFromKeyAux_pos (tz : Int) (t : TableModel) (m : Nat) :
    ∀ (ps : List (Nat × FieldSrc)) (i k : Nat), 0 < i →
      k ≤ ps.length →
      (∀ j, j < k → m.testBit (i + j) = true) →
      (k < ps.length → m.testBit (i + k) = false) →
      whereFromKeyAux tz t m i ps = andChain ((ps.take k).map (keyClause tz t)) := by
  intro ps
  induction ps with
  | nil =>
    intro i k _ hk _ _
    have hz : k = 0 := Nat.le_zero.mp hk
    subst hz
    rfl
  | cons p rest ih =>
    intro i k hi hk hbits hstop
    cases k with
    | zero =>
      have hb : m.testBit (i + 0) = false := hstop (Nat.succ_pos _)
      rw [Nat.add_zero] at hb
      show (if m.testBit i = true then _ else "") = _
      rw [if_neg (by simp [hb])]
      rfl
    | succ k2 =>
      have hb0 : m.testBit (i + 0) = true := hbits 0 (Nat.succ_pos _)
      rw [Nat.add_zero] at hb0
      show (if m.testBit i = true then
        (if 0 < i then " AND " else "") ++ keyClause tz t p
          ++ whereFromKeyAux tz t m (i + 1) rest else "") = _
      rw [if_pos hb0]
      rw [if_pos hi]
      rw [ih (i + 1) k2 (Nat.succ_pos i) (by simpa using Nat.succ_le_succ_iff.mp hk)
        (fun j hj => by
          have h2 := hbits (j + 1) (by omega)
          rw [show i + (j + 1) = i + 1 + j from by omega] at h2
          exact h2)
        (fun hlt => by
          have h2 := hstop (by simpa using Nat.succ_lt_succ hlt)
          rw [show i + (k2 + 1) = i + 1 + k2 from by omega] at h2
          exact h2)]
      exact str_append_assoc _ _ _

theorem build_where_from_key_take (tz : Int) (t : TableModel) (parts : List Nat)
    (keyVals : List FieldSrc) (m k : Nat)
    (hpk : t.primaryKey = some parts)
    (hk : k ≤ (parts.zip keyVals).length)
    (hbits : ∀ j, j < k → m.testBit j = true)
    (hstop : k < (parts.zip keyVals).length → m.testBit k = false) :
    build_where_from_key tz t keyVals m
      = joinSep " AND " (((parts.zip keyVals).take k).map (keyClause tz t)) := by
  unfold build_where_from_key
  rw [hpk]
  show whereFromKeyAux tz t m 0 (parts.zip keyVals) = _
  rcases hzip : parts.zip keyVals with _ | ⟨p, rest⟩
  · rw [hzip] at hk
    have hz : k = 0 := Nat.le_zero.mp hk
    subst hz
    rfl
  · rw [hzip] at hk hstop
    cases k with
    | zero =>
      have hb : m.testBit 0 = false := hstop (Nat.succ_pos _)
      show (if m.testBit 0 = true then _ else "") = _
      rw [if_neg (by simp [hb])]
      rfl
    | succ k2 =>
      have hb0 : m.testBit 0 = true := hbits 0 (Nat.succ_pos _)
      show (if m.testBit 0 = true then
        (if 0 < 0 then " AND " else "") ++ keyClause tz t p
          ++ whereFromKeyAux tz t m (0 + 1) rest else "") = _
      rw [if_pos hb0]
      rw [if_neg (Nat.lt_irrefl 0)]
      rw [whereFromKeyAux_pos tz t m rest 1 k2 Nat.one_pos
        (by simpa using Nat.succ_le_succ_iff.mp hk)
        (fun j hj => by
          have h2 := hbits (j + 1) (by omega)
          rw [show j + 1 = 1 + j from by omega] at h2
          exact h2)
        (fun hlt => by
          have h2 := hstop (by simpa using Nat.succ_lt_succ hlt)
          rw [show k2 + 1 = 1 + k2 from by omega] at h2
          exact h2)]
      rw [List.take_succ_cons, List.map_cons, joinSep_and_eq, str_empty_append]

/-- C7: for a composite primary key and a keypart map selecting exactly the
first `k < n` parts, `build_where_from_key` emits exactly the `k` clauses of
the selected prefix joined by ` AND `, stopping at the first absent part. -/
theorem c7_keypart_prefix_clauses (tz : Int) (t : TableModel) (parts : List Nat)
    (keyVals : List FieldSrc) (m k : Nat)
    (hpk : t.primaryKey = some parts)
    (hlen : parts.length ≤ keyVals.length)
    (hk : k < parts.length)
    (hbits : ∀ j, j < k → m.testBit j = true)
    (hstop : m.testBit k = false) :
    build_where_from_key tz t keyVals m
      = joinSep " AND " (((parts.zip keyVals).take k).map (keyClause tz t)) ∧
    (((parts.zip keyVals).take k).map (keyClause tz t)).length = k := by
  have hzlen : (parts.zip keyVals).length = parts.length := by
    rw [List.length_zip]
    omega
  constructor
  · exact build_where_from_key_take tz t parts keyVals m k hpk (by omega) hbits
      (fun _ => hstop)
  · rw [List.length_map, List.length_take]
    omega

/-- Witness for C7: 2-part key, only the first part selected, one clause. -/
theorem c7_keypart_prefix_clauses_witness :
    build_where_from_key 0 ⟨[⟨"a", intField .long 5⟩, ⟨"b", intField .long 6⟩], some [0, 1]⟩
        [intField .long 5, intField .long 6] 1
      = joinSep " AND " ((([0, 1].zip [intField .long 5, intField .long 6]).take 1).map
          (keyClause 0 ⟨[⟨"a", intField .long 5⟩, ⟨"b", intField .long 6⟩], some [0, 1]⟩)) ∧
    ((([0, 1].zip [intField .long 5, intField .long 6]).take 1).map
        (keyClause 0 ⟨[⟨"a", intField .long 5⟩, ⟨"b", intField .long 6⟩], some [0, 1]⟩)).length
      = 1 :=
  c7_keypart_prefix_clauses 0 ⟨[⟨"a", intField .long 5⟩, ⟨"b", intField .long 6⟩], some [0, 1]⟩
    [0, 1] [intField .long 5, intField .long 6] 1 1 rfl (by decide) (by decide)
    (fun j hj => by
      have hz : j = 0 := by omega
      subst hz
      decide)
    (by decide)

/- ### C9: scan position round trip -/

theorem decode_natToBytes : ∀ (k n : Nat), decodeSizeT (natToBytes k n) = n % 256 ^ k := by
  intro k
  induction k with
  | zero =>
    intro n
    simp [natToBytes, decodeSizeT, Nat.mod_one]
  | succ k ih =>
    intro n
    show n % 256 + 256 * decodeSizeT (natToBytes k (n / 256)) = n % 256 ^ (k + 1)
    rw [ih (n / 256)]
    rw [show (256 : ℕ) ^ (k + 1) = 256 * 256 ^ k from by ring]
    rw [Nat.mod_mul]

theorem decode_encode_sizeT (n : Nat) (h : n < 2 ^ 64) :
    decodeSizeT (encodeSizeT n) = n := by
  unfold encodeSizeT
  rw [decode_natToBytes]
  rw [show (256 : ℕ) ^ 8 = 2 ^ 64 from by norm_num]
  exact Nat.mod_eq_of_lt h

theorem rndNextIter_ok (n : Nat) :
    ∀ (s : HaState), s.current_position + n < s.result_set.length →
      rndNextIter n s = .ok (s.current_position + n,
        ⟨s.result_set, s.column_names, s.current_position + n + 1, s.ref⟩) := by
  induction n with
  | zero =>
    intro s h
    show rnd_next s = _
    unfold rnd_next
    rw [if_neg (by omega)]
    simp
  | succ n ih =>
    intro s h
    show (rnd_next s).bind _ = _
    unfold rnd_next
    rw [if_neg (by omega)]
    show rndNextIter n ⟨s.result_set, s.column_names, s.current_position + 1, s.ref⟩ = _
    rw [ih ⟨s.result_set, s.column_names, s.current_position + 1, s.ref⟩ (by simp; omega)]
    have hadd : s.current_position + 1 + n = s.current_position + (n + 1) := by omega
    simp only [hadd]

/-- C9: starting a scan and taking `i + 1` successful `rnd_next` steps
returns row index `i`; `position` then stores the fixed-width binary encoding
of `i` in the reference buffer, and `rnd_pos` on that reference materializes
exactly row `i` of the retained result set again. -/
theorem c9_position_roundtrip (rs : List (List String)) (cols : List String) (i : Nat)
    (hi : i < rs.length) (h64 : i < 2 ^ 64) :
    rndNextIter i (scanStart rs cols) = .ok (i, ⟨rs, cols, i + 1, []⟩) ∧
    (position ⟨rs, cols, i + 1, []⟩).ref = encodeSizeT i ∧
    rnd_pos (position ⟨rs, cols, i + 1, []⟩) (position ⟨rs, cols, i + 1, []⟩).ref
      = .ok i := by
  have href : (position (⟨rs, cols, i + 1, []⟩ : HaState)).ref = encodeSizeT i := by
    unfold position
    simp
  refine ⟨?_, href, ?_⟩
  · have h0 := rndNextIter_ok i (scanStart rs cols) (by simp [scanStart]; omega)
    simpa [scanStart] using h0
  · unfold rnd_pos
    rw [href]
    rw [show (position (⟨rs, cols, i + 1, []⟩ : HaState)).result_set = rs from rfl]
    rw [decode_encode_sizeT i h64]
    rw [if_neg (by omega)]

/-- Witness for C9 on a one-row result set. -/
theorem c9_position_roundtrip_witness :
    rndNextIter 0 (scanStart [["x"]] ["a"]) = .ok (0, ⟨[["x"]], ["a"], 0 + 1, []⟩) ∧
    (position ⟨[["x"]], ["a"], 0 + 1, []⟩).ref = encodeSizeT 0 ∧
    rnd_pos (position ⟨[["x"]], ["a"], 0 + 1, []⟩)
        (position ⟨[["x"]], ["a"], 0 + 1, []⟩).ref = .ok 0 :=
  c9_position_roundtrip [["x"]] ["a"] 0 (by decide) (by norm_num)

/- ### C10: tables with no primary key -/

/-- C10: on a table with no primary key, `build_where_from_key` returns the
empty string (no first-column fallback), so an index lookup issues a SELECT
with no WHERE clause at all — even though `build_primary_key_where` (used by
UPDATE/DELETE) and CREATE-TABLE generation both fall back to the first
column. -/
theorem c10_no_pk_fallback_mismatch (tz : Int) (t : TableModel) (ks tn : String)
    (keyVals buf : List FieldSrc) (m : Nat) (c0 : ColumnModel) (rest : List ColumnModel)
    (hpk : t.primaryKey = none) (hcols : t.cols = c0 :: rest) :
    build_where_from_key tz t keyVals m = "" ∧
    index_read_cql tz t ks tn keyVals m
      = "SELECT " ++ build_column_list t ++ " FROM " ++ ks ++ "." ++ tn
          ++ " ALLOW FILTERING" ∧
    build_primary_key_where tz t buf
      = c0.name ++ " = " ++ get_cql_value tz (buf.getD 0 defaultField) ∧
    build_create_table_cql t ks tn
      = "CREATE TABLE IF NOT EXISTS " ++ ks ++ "." ++ tn ++ " ("
          ++ joinSep ", " (t.cols.map (fun c => c.name ++ " " ++ mariadb_to_cql_type c.src))
          ++ (", PRIMARY KEY (" ++ c0.name ++ ")") ++ ")" := by
  have hwk : build_where_from_key tz t keyVals m = "" := by
    unfold build_where_from_key
    rw [hpk]
  refine ⟨hwk, ?_, ?_, ?_⟩
  · unfold index_read_cql
    rw [hwk]
    unfold build_select_cql
    rw [show has_where_clause "" = false from by decide]
    simp only [Bool.false_eq_true, if_false]
    exact congrArg (fun x => x ++ " ALLOW FILTERING") (str_append_empty _)
  · unfold build_primary_key_where
    rw [hpk, hcols]
  · unfold build_create_table_cql
    rw [hpk, hcols]

/-- Witness for C10 on a one-column keyless table. -/
theorem c10_no_pk_fallback_mismatch_witness :
    build_where_from_key 0 ⟨[⟨"a", intField .long 5⟩], none⟩ [] 1 = "" ∧
    index_read_cql 0 ⟨[⟨"a", intField .long 5⟩], none⟩ "ks" "t" [] 1
      = "SELECT " ++ build_column_list ⟨[⟨"a", intField .long 5⟩], none⟩
          ++ " FROM " ++ "ks" ++ "." ++ "t" ++ " ALLOW FILTERING" ∧
    build_primary_key_where 0 ⟨[⟨"a", intField .long 5⟩], none⟩ [intField .long 7]
      = ("a" : String) ++ " = "
          ++ get_cql_value 0 ([intField .long 7].getD 0 defaultField) ∧
    build_create_table_cql ⟨[⟨"a", intField .long 5⟩], none⟩ "ks" "t"
      = "CREATE TABLE IF NOT EXISTS " ++ "ks" ++ "." ++ "t" ++ " ("
          ++ joinSep ", " (([⟨"a", intField .long 5⟩] : List ColumnModel).map
              (fun c => c.name ++ " " ++ mariadb_to_cql_type c.src))
          ++ (", PRIMARY KEY (" ++ "a" ++ ")") ++ ")" :=
  c10_no_pk_fallback_mismatch 0 ⟨[⟨"a", intField .long 5⟩], none⟩ "ks" "t" [] [intField .long 7]
    1 ⟨"a", intField .long 5⟩ [] rfl rfl

/- ### C3: case-insensitive by-name materialization -/

theorem lookup_insertAssoc_self (mp : List (String × Nat)) (k : String) (v : Nat) :
    (insertAssoc mp k v).lookup k = some v := by
  induction mp with
  | nil =>
    show List.lookup k [(k, v)] = some v
    rw [List.lookup_cons]
    simp
  | cons p rest ih =>
    obtain ⟨k0, v0⟩ := p
    show (if k0 = k then (k0, v) :: rest else (k0, v0) :: insertAssoc rest k v).lookup k
      = some v
    by_cases h : k0 = k
    · rw [if_pos h]
      subst h
      rw [List.lookup_cons]
      simp
    · rw [if_neg h]
      rw [List.lookup_cons]
      rw [show (k == k0) = false from beq_eq_false_iff_ne.mpr (fun hc => h hc.symm)]
      exact ih

theorem lookup_insertAssoc_ne (mp : List (String × Nat)) (k : String) (v : Nat)
    (k2 : String) (h : k2 ≠ k) :
    (insertAssoc mp k v).lookup k2 = mp.lookup k2 := by
  induction mp with
  | nil =>
    show List.lookup k2 [(k, v)] = List.lookup k2 []
    rw [List.lookup_cons]
    rw [show (k2 == k) = false from beq_eq_false_iff_ne.mpr h]
  | cons p rest ih =>
    obtain ⟨k0, v0⟩ := p
    show (if k0 = k then (k0, v) :: rest else (k0, v0) :: insertAssoc rest k v).lookup k2
      = List.lookup k2 ((k0, v0) :: rest)
    by_cases h0 : k0 = k
    · rw [if_pos h0]
      subst h0
      rw [List.lookup_cons, List.lookup_cons]
      rw [show (k2 == k0) = false from beq_eq_false_iff_ne.mpr h]
    · rw [if_neg h0]
      rw [List.lookup_cons, List.lookup_cons]
      cases hbeq : (k2 == k0) with
      | true => rfl
      | false => exact ih

theorem foldl_insert_persist (keyOf : Nat → String) (name : String) :
    ∀ (idxs : List Nat) (mp : List (String × Nat)),
      (∀ i ∈ idxs, keyOf i ≠ name) →
      (idxs.foldl (fun mp i => insertAssoc mp (keyOf i) i) mp).lookup name
        = mp.lookup name := by
  intro idxs
  induction idxs with
  | nil => intro mp _; rfl
  | cons a rest ih =>
    intro mp h
    show (rest.foldl _ (insertAssoc mp (keyOf a) a)).lookup name = _
    rw [ih (insertAssoc mp (keyOf a) a) (fun i hi => h i (by simp [hi]))]
    exact lookup_insertAssoc_ne mp (keyOf a) a name
      (fun hc => h a (by simp) hc.symm)

theorem foldl_insert_found (keyOf : Nat → String) (name : String) :
    ∀ (idxs : List Nat) (mp : List (String × Nat)) (i : Nat),
      idxs.Nodup → i ∈ idxs → keyOf i = name →
      (∀ j ∈ idxs, j ≠ i → keyOf j ≠ name) →
      (idxs.foldl (fun mp i => insertAssoc mp (keyOf i) i) mp).lookup name = some i := by
  intro idxs
  induction idxs with
  | nil =>
    intro mp i _ hmem
    exact absurd hmem (List.not_mem_nil i)
  | cons a rest ih =>
    intro mp i hnd hmem hkey hdist
    show (rest.foldl _ (insertAssoc mp (keyOf a) a)).lookup name = some i
    by_cases ha : a = i
    · subst ha
      have hnotin : a ∉ rest := (List.nodup_cons.mp hnd).1
      rw [foldl_insert_persist keyOf name rest _
        (fun j hj => hdist j (by simp [hj]) (fun hji => hnotin (hji ▸ hj)))]
      rw [← hkey]
      exact lookup_insertAssoc_self mp (keyOf a) a
    · have hmem2 : i ∈ rest := by
        rcases List.mem_cons.mp hmem with h1 | h1
        · exact absurd h1.symm ha
        · exact h1
      exact ih (insertAssoc mp (keyOf a) a) i (List.nodup_cons.mp hnd).2 hmem2 hkey
        (fun j hj => hdist j (by simp [hj]))

theorem lookup_buildColumnMap_some (colNames row : List String) (i : Nat)
    (hnd : (colNames.map lowerStr).Nodup)
    (hi : i < colNames.length) (hi2 : i < row.length) :
    (buildColumnMap colNames row).lookup (lowerStr (colNames.getD i "")) = some i := by
  unfold buildColumnMap
  apply foldl_insert_found
  · exact List.nodup_range _
  · exact List.mem_range.mpr (by omega)
  · rfl
  · intro j hj hji hc
    apply hji
    have hjlt : j < colNames.length := by
      have := List.mem_range.mp hj
      omega
    have hc2 : (colNames.map lowerStr).get ⟨j, by simpa using hjlt⟩
        = (colNames.map lowerStr).get ⟨i, by simpa using hi⟩ := by
      simp only [List.get_eq_getElem, List.getElem_map]
      rw [← List.getD_eq_getElem colNames "" hjlt, ← List.getD_eq_getElem colNames "" hi]
      exact hc
    have h2 := (List.Nodup.get_inj_iff hnd).mp hc2
    simpa using h2

theorem lookup_buildColumnMap_none (colNames row : List String) (name : String)
    (h : ∀ i, i < colNames.length → i < row.length →
      lowerStr (colNames.getD i "") ≠ name) :
    (buildColumnMap colNames row).lookup name = none := by
  unfold buildColumnMap
  rw [foldl_insert_persist _ name _ []
    (fun i hi => by
      have := List.mem_range.mp hi
      exact h i (by omega) (by omega))]
  rfl

theorem storeFields_ok (cmap : List (String × Nat)) (row : List String) :
    ∀ (cols : List ColumnModel) (out : List (Option FieldVal)),
      storeFields cmap row cols = .ok out →
      out.length = cols.length ∧
      ∀ j, j < cols.length →
        Except.ok (out.getD j none)
          = (match cmap.lookup (lowerStr ((cols.getD j defaultColumn).name)) with
             | some i => storeCell ((cols.getD j defaultColumn).src.ty) (row.getD i "")
             | none => .ok none) := by
  intro cols
  induction cols with
  | nil =>
    intro out h
    have hout : ([] : List (Option FieldVal)) = out := by
      injection h
    subst hout
    exact ⟨rfl, fun j hj => absurd hj (by simp)⟩
  | cons c rest ih =>
    intro out h
    rw [storeFields] at h
    cases hcell : (match cmap.lookup (lowerStr c.name) with
                   | some i => storeCell c.src.ty (row.getD i "")
                   | none => .ok none) with
    | error e =>
      rw [hcell] at h
      exact Except.noConfusion h
    | ok v =>
      rw [hcell] at h
      have h2 : (storeFields cmap row rest).map (fun vs => v :: vs) = .ok out := h
      cases hrest : storeFields cmap row rest with
      | error e =>
        rw [hrest] at h2
        simp [Except.map] at h2
      | ok vs =>
        rw [hrest] at h2
        simp only [Except.map, Except.ok.injEq] at h2
        subst h2
        obtain ⟨ihlen, ihget⟩ := ih vs hrest
        constructor
        · simp [ihlen]
        · intro j hj
          cases j with
          | zero => exact hcell.symm
          | succ j2 =>
            have hj2 : j2 < rest.length := by
              simp at hj
              omega
            exact ihget j2 hj2

/-- C3: materialization assigns each result cell to the schema column whose
name matches case-insensitively — independent of the positional order of the
result columns — and sets every schema column whose name does not occur in
the result-column list to null. -/
theorem c3_materialize_by_name (colNames row : List String) (t : TableModel)
    (out : List (Option FieldVal))
    (hnd : (colNames.map lowerStr).Nodup)
    (hlen : colNames.length ≤ row.length)
    (hok : store_result_to_record colNames row t = .ok out) :
    out.length = t.cols.length ∧
    (∀ j, j < t.cols.length →
      (∀ i, i < colNames.length →
        lowerStr (colNames.getD i "") ≠ lowerStr ((t.cols.getD j defaultColumn).name)) →
      out.getD j none = none) ∧
    (∀ j i, j < t.cols.length → i < colNames.length →
      lowerStr (colNames.getD i "") = lowerStr ((t.cols.getD j defaultColumn).name) →
      Except.ok (out.getD j none)
        = storeCell ((t.cols.getD j defaultColumn).src.ty) (row.getD i "")) := by
  obtain ⟨hlen2, hget⟩ := storeFields_ok (buildColumnMap colNames row) row t.cols out hok
  refine ⟨hlen2, ?_, ?_⟩
  · intro j hj hnone
    have hl : (buildColumnMap colNames row).lookup
        (lowerStr ((t.cols.getD j defaultColumn).name)) = none :=
      lookup_buildColumnMap_none colNames row _ (fun i hi _ => hnone i hi)
    have := hget j hj
    rw [hl] at this
    injection this
  · intro j i hj hi hmatch
    have hl : (buildColumnMap colNames row).lookup
        (lowerStr ((t.cols.getD j defaultColumn).name)) = some i := by
      rw [← hmatch]
      exact lookup_buildColumnMap_some colNames row i hnd hi (by omega)
    have := hget j hj
    rw [hl] at this
    exact this

/-- Witness for C3: result columns `["Name", "ID"]` (mixed case, reversed
order) against schema `[ID, Name]`. -/
theorem c3_materialize_by_name_witness :
    ([some (FieldVal.vInt 7), some (FieldVal.vStr "bob")] : List (Option FieldVal)).length
      = ([⟨"ID", intField .long 0⟩, ⟨"Name", textField ""⟩] : List ColumnModel).length ∧
    (∀ j, j < ([⟨"ID", intField .long 0⟩, ⟨"Name", textField ""⟩] : List ColumnModel).length →
      (∀ i, i < (["Name", "ID"] : List String).length →
        lowerStr ((["Name", "ID"] : List String).getD i "")
          ≠ lowerStr ((([⟨"ID", intField .long 0⟩, ⟨"Name", textField ""⟩] :
              List ColumnModel).getD j defaultColumn).name)) →
      ([some (FieldVal.vInt 7), some (FieldVal.vStr "bob")] :
        List (Option FieldVal)).getD j none = none) ∧
    (∀ j i, j < ([⟨"ID", intField .long 0⟩, ⟨"Name", textField ""⟩] : List ColumnModel).length →
      i < (["Name", "ID"] : List String).length →
      lowerStr ((["Name", "ID"] : List String).getD i "")
        = lowerStr ((([⟨"ID", intField .long 0⟩, ⟨"Name", textField ""⟩] :
            List ColumnModel).getD j defaultColumn).name) →
      Except.ok (([some (FieldVal.vInt 7), some (FieldVal.vStr "bob")] :
          List (Option FieldVal)).getD j none)
        = storeCell ((([⟨"ID", intField .long 0⟩, ⟨"Name", textField ""⟩] :
            List ColumnModel).getD j defaultColumn).src.ty)
            ((["bob", "7"] : List String).getD i "")) :=
  c3_materialize_by_name ["Name", "ID"] ["bob", "7"]
    ⟨[⟨"ID", intField .long 0⟩, ⟨"Name", textField ""⟩], none⟩
    [some (FieldVal.vInt 7), some (FieldVal.vStr "bob")]
    (by decide) (by decide) (by decide)

end ScyllaModel
